import Mathlib

/-!
Verification development for the abundantis environment-variable resolution
pipeline.  The Rust sources under scrutiny are shallowly embedded here:

* the data model (`ParsedVariable`, `SourceSnapshot`, `ResolvedVariable`,
  configuration records) from `src/source/variable.rs`, `src/source/traits.rs`
  and `src/config/types.rs`;
* the resolution engine (`src/resolution/mod.rs`): dependency graph and DFS
  cycle detection, snapshot filtering and ordering, lazy interpolation and
  `resolve_variable` / `resolve_inner` / `resolve` / `all_variables`;
* the memory source (`src/source/memory.rs`), the file source constructor
  (`src/source/file.rs`) and the auto-discovery selector (`src/selection.rs`).

Machine integers (`u32`, `u64`, `usize`) are modelled as `Nat`: none of the
embedded code paths perform arithmetic that can overflow on the inputs the
theorems quantify over (versions are sums of small counters, depths are
bounded by `max_depth`).  Filesystem state is passed explicitly as the list
of existing paths.  Wall-clock data (`Instant` timestamps) carries no
behavioural weight in the embedded fragment and is omitted from snapshots.
-/

deriving instance DecidableEq for Except

namespace Abundantis

/-! ### Data model -/

/-- `VariableSource` from `src/source/variable.rs`: the tagged origin of a
parsed variable.  Paths are represented by their textual form. -/
inductive VariableSource where
  | file (path : String) (offset : Nat)
  | shell
  | memory
  | remote (provider : String) (path : Option String)
deriving DecidableEq

/-- `ParsedVariable` from `src/source/variable.rs`. -/
structure ParsedVariable where
  key : String
  rawValue : String
  source : VariableSource
  description : Option String
  isCommented : Bool
deriving DecidableEq

/-- `SourceSnapshot` from `src/source/traits.rs`.  The `timestamp : Instant`
field is omitted: nothing in the embedded code reads it.  The Rust field
`variables` is spelled `vars` because `variables` is a Lean keyword. -/
structure SourceSnapshot where
  sourceId : String
  vars : List ParsedVariable
  version : Option Nat
deriving DecidableEq

/-- `SourcePrecedence` from `src/config/types.rs`. -/
inductive SourcePrecedence where
  | shell
  | file
  | remote
deriving DecidableEq

/-- `FileMergeMode` from `src/config/types.rs`. -/
inductive FileMergeMode where
  | merge
  | override
deriving DecidableEq

/-- `ResolutionConfig` from `src/config/types.rs`, with
`FileResolutionConfig` (`files.mode`, `files.order`) inlined. -/
structure ResolutionConfig where
  precedence : List SourcePrecedence
  filesMode : FileMergeMode
  filesOrder : List String
  typeCheck : Bool
deriving DecidableEq

/-- `InterpolationConfig` from `src/config/types.rs`.  The `features` record
is not read by the embedded engine code and is omitted. -/
structure InterpolationConfig where
  enabled : Bool
  maxDepth : Nat
deriving DecidableEq

/-- `ResolvedVariable` from `src/resolution/mod.rs`. -/
structure ResolvedVariable where
  key : String
  rawValue : String
  resolvedValue : String
  source : VariableSource
  description : Option String
  hasWarnings : Bool
  interpolationDepth : Nat
deriving DecidableEq

/-- The constructors of `AbundantisError` (`src/error.rs`) that the embedded
resolution fragment can produce. -/
inductive AbError where
  | circularDependency (chain : String)
  | maxDepthExceeded (key : String) (depth : Nat)
deriving DecidableEq

/-! ### The external template expander

The crate treats the textual interpolator as an external collaborator
("template expander"): `find_variable_references` extracts the `${NAME}`
references of a string, and `interpolate` substitutes references using a
supplied variable map, leaving references that are absent from the map
unexpanded.  Both are modelled here from that contract as single-pass
scanners over the character list. -/

/-- One left-to-right scan collecting the names inside `${...}` markers.
State `0`: outside a reference; state `1`: just saw a dollar sign;
state `2`: inside braces, `acc` holds the name characters in reverse. -/
def refsScan : List Char → Nat → List Char → List String
  | [], _, _ => []
  | c :: rest, 0, _ =>
      if c = '$' then refsScan rest 1 [] else refsScan rest 0 []
  | c :: rest, 1, _ =>
      if c = '{' then refsScan rest 2 []
      else if c = '$' then refsScan rest 1 []
      else refsScan rest 0 []
  | c :: rest, _, acc =>
      if c = '}' then String.mk acc.reverse :: refsScan rest 0 []
      else refsScan rest 2 (c :: acc)

/-- Modelled from the spec: the external expander's
`find_variable_references`, wrapped by
`ResolutionEngine::find_variable_references`. -/
def findVariableReferences (value : String) : List String :=
  refsScan value.data 0 []

/-- One left-to-right substitution scan; same state encoding as `refsScan`.
A reference found in the map `m` is replaced by its value, an unknown
reference is emitted unchanged. -/
def substScan (m : List (String × String)) : List Char → Nat → List Char → String
  | [], 0, _ => ""
  | [], 1, _ => "$"
  | [], _, acc => "$\x7b" ++ String.mk acc.reverse
  | c :: rest, 0, _ =>
      if c = '$' then substScan m rest 1 []
      else String.singleton c ++ substScan m rest 0 []
  | c :: rest, 1, _ =>
      if c = '{' then substScan m rest 2 []
      else if c = '$' then "$" ++ substScan m rest 1 []
      else "$" ++ String.singleton c ++ substScan m rest 0 []
  | c :: rest, _, acc =>
      if c = '}' then
        (match List.lookup (String.mk acc.reverse) m with
          | some v => v
          | none => "$\x7b" ++ String.mk acc.reverse ++ "\x7d") ++ substScan m rest 0 []
      else substScan m rest 2 (c :: acc)

/-- Modelled from the spec: the external expander's `interpolate`, applied to
the variable map accumulated by `add_variable` calls. -/
def interpolate (m : List (String × String)) (value : String) : String :=
  substScan m value.data 0 []

/-! ### Dependency graph and DFS cycle detection
(`DependencyGraph` in `src/resolution/mod.rs`) -/

/-- A `DependencyEdge`.  The `span` field is dropped: the engine only ever
stores the constant `Some((0, 0))` and cycle detection never reads it. -/
structure DepEdge where
  efrom : String
  eto : String
deriving DecidableEq

/-- `DependencyGraph`: the engine appends edges with `add_edge`, which also
pushes the edge onto the per-key adjacency list `nodes[from]`.  Keeping only
the edge list loses nothing: `nodes[k]` equals the edges with `from = k` in
insertion order. -/
structure DepGraph where
  edges : List DepEdge
deriving DecidableEq

/-- The adjacency list `nodes.get(k)` of the Rust graph (empty when the key
has no entry). -/
def successors (g : DepGraph) (k : String) : List String :=
  (g.edges.filter (fun e => e.efrom = k)).map (fun e => e.eto)

/-- The tri-state `visited` map of `dfs_detect_cycle`: a key bound to `true`
is on the current DFS path ("gray"), bound to `false` it is fully explored
("black"), absent it is unvisited ("white").  `HashMap` lookups and inserts
are modelled on an association list where the most recent binding wins. -/
abbrev Visited := List (String × Bool)

/-- `HashMap::get` on the visited map. -/
def vLookup : Visited → String → Option Bool
  | [], _ => none
  | (k, b) :: rest, key => if k = key then some b else vLookup rest key

/-- `HashMap::insert` on the visited map (the new binding shadows any old
one). -/
def vInsert (vis : Visited) (k : String) (b : Bool) : Visited :=
  (k, b) :: vis

/-- The `for edge in edges { if dfs(...) { return true } }` loop of
`dfs_detect_cycle`, followed by the backtracking epilogue
(`path.pop(); visited.insert(current, false); false`).  `step` is the
recursive call at the enclosing fuel level. -/
def dfsChildren (step : String → Visited → List String → Bool × Visited × List String)
    (cur : String) : List String → Visited → List String → Bool × Visited × List String
  | [], vis, path => (false, vInsert vis cur false, path.dropLast)
  | t :: ts, vis, path =>
    let r := step t vis path
    if r.1 then r else dfsChildren step cur ts r.2.1 r.2.2

/-- `DependencyGraph::dfs_detect_cycle`.  The Rust recursion is unbounded but
terminating; here it is driven by explicit fuel, which the callers choose
large enough (one more than the number of nodes the search can enter) that
the fuel-exhausted branch is never reached. -/
def dfsDetect (g : DepGraph) : Nat → String → Visited → List String → Bool × Visited × List String
  | 0, _, vis, path => (false, vis, path)
  | fuel + 1, cur, vis, path =>
    match vLookup vis cur with
    | some inPath => (inPath, vis, path)
    | none =>
        dfsChildren (fun t v p => dfsDetect g fuel t v p) cur (successors g cur)
          (vInsert vis cur true) (path ++ [cur])

/-- `DependencyGraph::detect_cycle_with_state`: clear the scratch state, run
the DFS, and report the path at the moment of detection (empty if no cycle).
The search enters at most `edges.length + 1` distinct nodes (the start plus
edge targets), so `edges.length + 2` fuel is never exhausted. -/
def detectCycleWithState (g : DepGraph) (start : String) : List String :=
  let r := dfsDetect g (g.edges.length + 2) start [] []
  if r.1 then r.2.2 else []

/-! ### Resolution engine (`ResolutionEngine` in `src/resolution/mod.rs`)

The engine's runtime state (config locks, cache, graph scratch buffers) is
threaded explicitly.  The cache is not modelled: all theorems concern the
cache-miss path of `resolve` on a freshly constructed engine, whose caches
are empty and whose `graph_version` is `0`. -/

/-- `str::starts_with`, over the character lists (the core `String`
functions do not evaluate inside the kernel). -/
def strStartsWith (s p : String) : Bool :=
  p.data.isPrefixOf s.data

/-- `str::ends_with`. -/
def strEndsWith (s p : String) : Bool :=
  p.data.isSuffixOf s.data

/-- Dropping the `"file:"` prefix: `&source_str[5..]`. -/
def strDrop (s : String) (n : Nat) : String :=
  String.mk (s.data.drop n)

/-- Splitting a path at `/` separators (the `components`-level view that
`Path::file_name` works on). -/
def splitSlash : List Char → List (List Char)
  | [] => [[]]
  | c :: rest =>
      if c = '/' then [] :: splitSlash rest
      else
        match splitSlash rest with
        | g :: gs => (c :: g) :: gs
        | [] => [[c]]

/-- Joining a key chain with `" -> "` (`join(" -> ")` in the Rust code). -/
def joinArrow (keys : List String) : String :=
  String.intercalate " -> " keys

/-- `ResolutionEngine::get_file_order_index`, inner loop: the first pattern
matching by exact filename or path suffix yields index-plus-one, a miss
yields `file_order.len() + 1`.  `i` counts the patterns already consumed. -/
def fileOrderPos (filename path : String) : List String → Nat → Nat
  | [], i => i + 1
  | p :: rest, i =>
      if filename = p ∨ strEndsWith path p then i + 1
      else fileOrderPos filename path rest (i + 1)

/-- `Path::file_name` for the textual paths appearing in `file:` source ids:
the last `/`-separated non-empty component (dot-component corner cases of
the Rust API are not modelled; no source id in scope exercises them). -/
def pathFileName (path : String) : String :=
  String.mk ((((splitSlash path.data).filter (fun c => c ≠ [])).getLast?).getD [])

/-- `ResolutionEngine::get_file_order_index`: non-file sources sort at `0`,
before every file. -/
def getFileOrderIndex (sourceId : String) (fileOrder : List String) : Nat :=
  if strStartsWith sourceId "file:" then
    fileOrderPos (pathFileName (strDrop sourceId 5)) (strDrop sourceId 5) fileOrder 0
  else 0

/-- `ResolutionEngine::sort_snapshots_by_file_order` (and its twin
`sort_snapshot_refs_by_file_order`, which performs the identical stable sort
on references).  Rust's `sort_by` is stable; since the ordering keys lie in
`0 .. fileOrder.length + 1`, the stable sort coincides with this counting
sort, which concatenates the key-classes in increasing key order keeping the
original order inside each class. -/
def sortSnapshotsByFileOrder (rcfg : ResolutionConfig) (snapshots : List SourceSnapshot) :
    List SourceSnapshot :=
  (List.range (rcfg.filesOrder.length + 2)).flatMap
    (fun i => snapshots.filter (fun s => getFileOrderIndex s.sourceId rcfg.filesOrder = i))

/-- The source-type classification by id prefix used in
`ResolutionEngine::filter_by_source_type` (`none` = unrecognized prefix,
which passes the filter unconditionally). -/
def classifySourceId (sourceId : String) : Option SourcePrecedence :=
  if strStartsWith sourceId "file:" then some .file
  else if sourceId = "shell" ∨ strStartsWith sourceId "shell:" then some .shell
  else if strStartsWith sourceId "remote:" then some .remote
  else none

/-- `ResolutionEngine::filter_by_source_type`. -/
def filterBySourceType (rcfg : ResolutionConfig) (snapshots : List SourceSnapshot) :
    List SourceSnapshot :=
  if rcfg.precedence = [] then []
  else
    snapshots.filter (fun s =>
      match classifySourceId s.sourceId with
      | some t => rcfg.precedence.contains t
      | none => true)

/-- `ResolutionEngine::filter_snapshots_ref` (§4.8 file-source filtering).
A source id is a file source here iff it starts with `"file:"` and is longer
than the bare prefix. -/
def filterSnapshotsRef (snapshots : List SourceSnapshot)
    (fileSourceFilter : Option (List String)) : List SourceSnapshot :=
  match fileSourceFilter with
  | some filter =>
      if filter ≠ [] then
        snapshots.filter (fun s =>
          if strStartsWith s.sourceId "file:" ∧ s.sourceId.length > 5 then
            filter.contains s.sourceId
          else true)
      else
        snapshots.filter (fun s =>
          ¬ (strStartsWith s.sourceId "file:" ∧ s.sourceId.length > 5))
  | none => snapshots

/-- The `snapshot.variables.iter().find(|v| v.key == ref_key)`-then-`break`
walk over snapshots in `interpolate_value_lazy`: the first snapshot
containing the key wins. -/
def lookupSnapshots (snapshots : List SourceSnapshot) (refKey : String) :
    Option ParsedVariable :=
  match snapshots with
  | [] => none
  | s :: rest =>
    match s.vars.find? (fun v => v.key = refKey) with
    | some v => some v
    | none => lookupSnapshots rest refKey

/-- `ResolutionEngine::interpolate_value_lazy`: at or beyond `max_depth` (or
with interpolation disabled) the value is returned unchanged; otherwise each
reference not currently on the visited stack is resolved recursively against
the first snapshot containing it, and the expander substitutes the resulting
map.  The Rust expander-failure fallback (warn and return the original
value) is unreachable for the modelled total expander. -/
def interpolateAux (icfg : InterpolationConfig) (allSnapshots : List SourceSnapshot) :
    Nat → String → Nat → List String → String
  | fuel, value, depth, visited =>
    if depth ≥ icfg.maxDepth ∨ icfg.enabled = false then value
    else
      match fuel with
      | 0 => value
      | fuel + 1 =>
        let vars := (findVariableReferences value).filterMap (fun refKey =>
          if visited.contains refKey then none
          else
            match lookupSnapshots allSnapshots refKey with
            | some v =>
                some (v.key, interpolateAux icfg allSnapshots fuel v.rawValue (depth + 1) visited)
            | none => none)
        interpolate vars value

/-- The wrapper fixing the fuel of `interpolateAux`.  The Rust recursion
decreases the measure `max_depth - depth`; calling the aux function with
exactly that fuel keeps the invariant `fuel = max_depth - depth` at each
recursive call, so the fuel-exhausted branch (fuel `0` with
`depth < max_depth`) is never taken and the two formulations agree. -/
def interpolateValueLazy (icfg : InterpolationConfig) (allSnapshots : List SourceSnapshot)
    (value : String) (depth : Nat) (visited : List String) : String :=
  interpolateAux icfg allSnapshots (icfg.maxDepth - depth) value depth visited

/-- `ResolutionEngine::resolve_variable`.  The Rust `visited.push(key)` /
`visited.pop()` pair around the interpolation call is pure state restoration
and is rendered by passing `visited ++ [key]` to the recursive call. -/
def resolveVariable (icfg : InterpolationConfig) (v : ParsedVariable)
    (allSnapshots : List SourceSnapshot) (depth : Nat) (visited : List String) :
    Except AbError ResolvedVariable :=
  if icfg.enabled = false then
    .ok { key := v.key, rawValue := v.rawValue, resolvedValue := v.rawValue,
          source := v.source, description := v.description,
          hasWarnings := false, interpolationDepth := 0 }
  else if depth ≥ icfg.maxDepth then
    .error (.maxDepthExceeded v.key depth)
  else if visited.contains v.key then
    .error (.circularDependency (joinArrow visited))
  else
    .ok { key := v.key, rawValue := v.rawValue,
          resolvedValue :=
            interpolateValueLazy icfg allSnapshots v.rawValue (depth + 1) (visited ++ [v.key]),
          source := v.source, description := v.description,
          hasWarnings := false, interpolationDepth := depth }

/-- The snapshot iteration of `resolve_inner`: every snapshot containing the
key overwrites the current resolution (later snapshots in sorted order win),
and each `resolve_variable` error propagates immediately. -/
def resolveLoop (icfg : InterpolationConfig) (key : String)
    (allSnapshots : List SourceSnapshot) :
    List SourceSnapshot → Option ResolvedVariable → Except AbError (Option ResolvedVariable)
  | [], acc => .ok acc
  | s :: rest, acc =>
    match s.vars.find? (fun v => v.key = key) with
    | some v =>
        match resolveVariable icfg v allSnapshots 0 [] with
        | .ok r => resolveLoop icfg key allSnapshots rest (some r)
        | .error e => .error e
    | none => resolveLoop icfg key allSnapshots rest acc

/-- `ResolutionEngine::resolve_inner` (minus the cache insertion, which does
not affect the returned value). -/
def resolveInner (rcfg : ResolutionConfig) (icfg : InterpolationConfig) (key : String)
    (snapshots : List SourceSnapshot) : Except AbError (Option ResolvedVariable) :=
  match resolveLoop icfg key snapshots (sortSnapshotsByFileOrder rcfg snapshots) none with
  | .error e => .error e
  | .ok none => .ok none
  | .ok (some var) =>
      if var.hasWarnings && rcfg.typeCheck then
        .error (.circularDependency ("Cycle detected resolving '" ++ key ++ "'"))
      else .ok (some var)

/-- The filtering/sorting/looping body of
`ResolutionEngine::resolve_with_filter` (everything after the graph check):
the id filter and the precedence filter select the snapshots to iterate, but
`resolve_variable` still interpolates against all loaded snapshots. -/
def resolveFilteredInner (rcfg : ResolutionConfig) (icfg : InterpolationConfig) (key : String)
    (snapshots : List SourceSnapshot) (fileSourceFilter : Option (List String)) :
    Except AbError (Option ResolvedVariable) :=
  match resolveLoop icfg key snapshots
      (sortSnapshotsByFileOrder rcfg
        (filterBySourceType rcfg (filterSnapshotsRef snapshots fileSourceFilter))) none with
  | .error e => .error e
  | .ok none => .ok none
  | .ok (some var) =>
      if var.hasWarnings && rcfg.typeCheck then
        .error (.circularDependency ("Cycle detected resolving '" ++ key ++ "'"))
      else .ok (some var)

/-- `ResolutionEngine::snapshots_version`: the sum of the versions that are
present. -/
def snapshotsVersion (snapshots : List SourceSnapshot) : Nat :=
  (snapshots.filterMap (fun s => s.version)).sum

/-- The edge-building first half of
`ResolutionEngine::build_dependency_graph`: one edge per reference of each
variable of each snapshot, in iteration order. -/
def buildGraphEdges (snapshots : List SourceSnapshot) : List DepEdge :=
  snapshots.flatMap (fun s =>
    s.vars.flatMap (fun v =>
      (findVariableReferences v.rawValue).map (fun r => DepEdge.mk v.key r)))

/-- The cycle-scanning second half of `build_dependency_graph`: the first
variable whose fresh DFS reports a non-empty cycle aborts with
`CircularDependency`, the chain being the DFS path with the originating
variable key appended. -/
def cycleScan (g : DepGraph) : List String → Except AbError Unit
  | [] => .ok ()
  | k :: rest =>
    let cycle := detectCycleWithState g k
    if cycle = [] then cycleScan g rest
    else .error (.circularDependency (joinArrow cycle ++ " -> " ++ k))

/-- `ResolutionEngine::build_dependency_graph` (called by
`maybe_rebuild_graph` when the snapshot version sum differs from the stored
graph version). -/
def buildDependencyGraph (snapshots : List SourceSnapshot) : Except AbError Unit :=
  cycleScan (DepGraph.mk (buildGraphEdges snapshots))
    (snapshots.flatMap (fun s => s.vars.map (fun v => v.key)))

/-- `ResolutionEngine::resolve` on a cache miss: `maybe_rebuild_graph` when
`type_check` is set (rebuilding — and thus cycle-checking — exactly when the
version sum differs from `graphVersion`, which is `0` on a fresh engine),
then `resolve_inner`. -/
def resolve (rcfg : ResolutionConfig) (icfg : InterpolationConfig) (graphVersion : Nat)
    (key : String) (snapshots : List SourceSnapshot) :
    Except AbError (Option ResolvedVariable) :=
  if rcfg.typeCheck ∧ snapshotsVersion snapshots ≠ graphVersion then
    match buildDependencyGraph snapshots with
    | .error e => .error e
    | .ok () => resolveInner rcfg icfg key snapshots
  else resolveInner rcfg icfg key snapshots

/-- `ResolutionEngine::resolve_with_filter` on a cache miss (fresh engine:
`graphVersion = 0`). -/
def resolveWithFilter (rcfg : ResolutionConfig) (icfg : InterpolationConfig)
    (graphVersion : Nat) (key : String) (snapshots : List SourceSnapshot)
    (fileSourceFilter : Option (List String)) : Except AbError (Option ResolvedVariable) :=
  if rcfg.typeCheck ∧ snapshotsVersion snapshots ≠ graphVersion then
    match buildDependencyGraph snapshots with
    | .error e => .error e
    | .ok () => resolveFilteredInner rcfg icfg key snapshots fileSourceFilter
  else resolveFilteredInner rcfg icfg key snapshots fileSourceFilter

/-- The nested collection loop of `all_variables_inner`, flattened over the
variables of the sorted snapshots: the first occurrence of each key is
resolved (against all snapshots) and recorded. -/
def collectLoop (icfg : InterpolationConfig) (allSnapshots : List SourceSnapshot) :
    List ParsedVariable → List String → Except AbError (List ResolvedVariable)
  | [], _ => .ok []
  | v :: rest, seen =>
    if seen.contains v.key then collectLoop icfg allSnapshots rest seen
    else
      match resolveVariable icfg v allSnapshots 0 [] with
      | .error e => .error e
      | .ok r =>
        match collectLoop icfg allSnapshots rest (v.key :: seen) with
        | .error e => .error e
        | .ok others => .ok (r :: others)

/-- `ResolutionEngine::all_variables_inner`: precedence filter, stable file
order sort, then first-seen-per-key collection. -/
def allVariablesInner (rcfg : ResolutionConfig) (icfg : InterpolationConfig)
    (allSnapshots filteredSnapshots : List SourceSnapshot) :
    Except AbError (List ResolvedVariable) :=
  collectLoop icfg allSnapshots
    ((sortSnapshotsByFileOrder rcfg (filterBySourceType rcfg filteredSnapshots)).flatMap
      (fun s => s.vars))
    []

/-- `ResolutionEngine::all_variables` on a fresh engine (graph version `0`),
after `load_all` produced `snapshots`. -/
def allVariables (rcfg : ResolutionConfig) (icfg : InterpolationConfig) (graphVersion : Nat)
    (snapshots : List SourceSnapshot) : Except AbError (List ResolvedVariable) :=
  if rcfg.typeCheck ∧ snapshotsVersion snapshots ≠ graphVersion then
    match buildDependencyGraph snapshots with
    | .error e => .error e
    | .ok () => allVariablesInner rcfg icfg snapshots snapshots
  else allVariablesInner rcfg icfg snapshots snapshots

/-! ### Memory source (`MemorySource` in `src/source/memory.rs`) -/

/-- `MemorySource`: an insertion-ordered map (`IndexMap`) of variables plus a
monotonic version counter. -/
structure MemorySource where
  entries : List (String × ParsedVariable)
  version : Nat
deriving DecidableEq

/-- `MemorySource::new`. -/
def memNew : MemorySource := { entries := [], version := 0 }

/-- `IndexMap::insert`: replace the value in place when the key is present
(keeping its position), append at the end otherwise. -/
def indexMapInsert : List (String × ParsedVariable) → String → ParsedVariable →
    List (String × ParsedVariable)
  | [], k, v => [(k, v)]
  | (k1, v1) :: rest, k, v =>
      if k1 = k then (k, v) :: rest else (k1, v1) :: indexMapInsert rest k v

/-- `MemorySource::set`: insert the parsed variable and bump the version. -/
def memSet (s : MemorySource) (key value : String) : MemorySource :=
  { entries := indexMapInsert s.entries key
      { key := key, rawValue := value, source := .memory,
        description := none, isCommented := false },
    version := s.version + 1 }

/-- `IndexMap::swap_remove` applied at index `i`: the last entry moves into
slot `i` and the length shrinks by one.  When `i` is the last index the
`set` is out of range and the result is just `dropLast`, which is exactly
the swap-remove behaviour. -/
def swapRemoveAt (l : List (String × ParsedVariable)) (i : Nat) :
    List (String × ParsedVariable) :=
  match l.getLast? with
  | none => []
  | some last => l.dropLast.set i last

/-- `MemorySource::remove`: `swap_remove` by key; the version is bumped only
when an entry was actually removed. -/
def memRemove (s : MemorySource) (key : String) : Option ParsedVariable × MemorySource :=
  match s.entries.findIdx? (fun p => p.1 = key) with
  | none => (none, s)
  | some i =>
      ((s.entries.get? i).map (fun p => p.2),
       { entries := swapRemoveAt s.entries i, version := s.version + 1 })

/-- `MemorySource::load`: a snapshot of the current values with the current
version. -/
def memLoad (s : MemorySource) : SourceSnapshot :=
  { sourceId := "memory", vars := s.entries.map (fun p => p.2),
    version := some s.version }

/-! ### File source constructor (`FileSource::new` in `src/source/file.rs`) -/

/-- The error value `FileSource::new` produces
(`std::io::ErrorKind::NotFound`). -/
inductive IoErrorKind where
  | notFound
deriving DecidableEq

/-- The fields of `FileSource` set by the constructor. -/
structure FileSource where
  path : String
  id : String
  lastModified : Option Nat
  cachedVars : Option (List ParsedVariable)
  version : Option Nat
  nextVersion : Nat
deriving DecidableEq

/-- `FileSource::new`, with the ambient filesystem passed explicitly as the
list `fs` of existing paths: a path that does not exist yields `NotFound`,
otherwise a source with id `"file:<path>"` and empty caches. -/
def fileSourceNew (fs : List String) (path : String) : Except IoErrorKind FileSource :=
  if ¬ fs.contains path then .error .notFound
  else
    .ok { path := path, id := "file:" ++ path, lastModified := none,
          cachedVars := none, version := none, nextVersion := 1 }

/-! ### Active-file auto-discovery (`src/selection.rs`) -/

/-- `AUTO_DISCOVERY_PRIORITY` from `src/selection.rs`. -/
def AUTO_DISCOVERY_PRIORITY : List String :=
  [".env.local", ".env.development", ".env.dev", ".env",
   ".env.test", ".env.staging", ".env.production", ".env.prod"]

/-- `PackageInfo` from `src/workspace`. -/
structure PackageInfo where
  root : String
  name : Option String
  relativePath : String
deriving DecidableEq

/-- `Path::join` on the textual paths used by the selector. -/
def joinPath (dir name : String) : String := dir ++ "/" ++ name

/-- The `for env_file_name in AUTO_DISCOVERY_PRIORITY { .. break }` probe of
`auto_discover_files`: the first priority-list entry that exists at `root`. -/
def firstExisting (fs : List String) (root : String) : List String → Option String
  | [] => none
  | n :: rest =>
      if fs.contains (joinPath root n) then some (joinPath root n)
      else firstExisting fs root rest

/-- `ActiveFileSelector::auto_discover_files`, with the filesystem explicit:
in a monorepo (more than one package, or package root distinct from the
workspace root) the workspace root is probed first; the package root is
always probed. -/
def autoDiscoverFiles (fs : List String) (workspaceRoot packageRoot : String)
    (packages : List PackageInfo) : List String :=
  (if packages.length > 1 ∨ packageRoot ≠ workspaceRoot then
      (firstExisting fs workspaceRoot AUTO_DISCOVERY_PRIORITY).toList
   else []) ++
  (firstExisting fs packageRoot AUTO_DISCOVERY_PRIORITY).toList

/-! ### Concrete fixtures for the end-to-end scenarios -/

/-- `A=${B}` as parsed from `/w/.env`. -/
def varAtoB : ParsedVariable :=
  { key := "A", rawValue := "${B}", source := .file "/w/.env" 0,
    description := none, isCommented := false }

/-- `B=${A}` as parsed from `/w/.env`. -/
def varBtoA : ParsedVariable :=
  { key := "B", rawValue := "${A}", source := .file "/w/.env" 7,
    description := none, isCommented := false }

/-- `A=${A}` as parsed from `/w/.env`. -/
def varAtoA : ParsedVariable :=
  { key := "A", rawValue := "${A}", source := .file "/w/.env" 0,
    description := none, isCommented := false }

/-- The snapshot of a file source for `/w/.env` containing the two-cycle
`A=${B}`, `B=${A}` (first load: version 1). -/
def snapCycleAB : SourceSnapshot :=
  { sourceId := "file:/w/.env", vars := [varAtoB, varBtoA], version := some 1 }

/-- The snapshot of a file source for `/w/.env` containing only the
self-reference `A=${A}` (first load: version 1). -/
def snapSelfA : SourceSnapshot :=
  { sourceId := "file:/w/.env", vars := [varAtoA], version := some 1 }

/-- `FOO=shell` from the process environment. -/
def varFooShell : ParsedVariable :=
  { key := "FOO", rawValue := "shell", source := .shell,
    description := none, isCommented := false }

/-- The shell source snapshot (version `None`: always current). -/
def snapShellFoo : SourceSnapshot :=
  { sourceId := "shell:process", vars := [varFooShell], version := none }

/-- `FOO=file` as parsed from `/w/.env`. -/
def varFooFile : ParsedVariable :=
  { key := "FOO", rawValue := "file", source := .file "/w/.env" 0,
    description := none, isCommented := false }

/-- The file source snapshot of `/w/.env` defining `FOO=file`. -/
def snapFileFoo : SourceSnapshot :=
  { sourceId := "file:/w/.env", vars := [varFooFile], version := some 1 }

/-- The default `ResolutionConfig` (precedence `[shell, file]`, mode Merge,
order `[".env", ".env.local"]`, `type_check = true`). -/
def rcDefault : ResolutionConfig :=
  { precedence := [.shell, .file], filesMode := .merge,
    filesOrder := [".env", ".env.local"], typeCheck := true }

/-- The default configuration with `type_check = false`. -/
def rcNoTC : ResolutionConfig := { rcDefault with typeCheck := false }

/-- The S1 scenario configuration: precedence `[shell, file]`, mode Merge,
`files.order = [".env"]`. -/
def rcS1 : ResolutionConfig :=
  { precedence := [.shell, .file], filesMode := .merge,
    filesOrder := [".env"], typeCheck := true }

/-- The configuration with an empty precedence list. -/
def rcEmptyPrec : ResolutionConfig :=
  { precedence := [], filesMode := .merge, filesOrder := [".env"], typeCheck := true }

/-- Interpolation enabled with `max_depth = 4` (scenario S4). -/
def ic4 : InterpolationConfig := { enabled := true, maxDepth := 4 }

/-- The default interpolation configuration (`max_depth = 64`). -/
def icDefault : InterpolationConfig := { enabled := true, maxDepth := 64 }

/-! ### Graph-theoretic vocabulary for the DFS correctness argument -/

/-- `a → b` is an edge of the dependency graph. -/
def hasEdge (g : DepGraph) (a b : String) : Prop :=
  DepEdge.mk a b ∈ g.edges

/-- A non-empty directed walk from `a` to `c`. -/
inductive ReachG (g : DepGraph) : String → String → Prop where
  | single {a b : String} : hasEdge g a b → ReachG g a b
  | head {a b c : String} : hasEdge g a b → ReachG g b c → ReachG g a c

/-- Key `k` is on the current DFS path ("gray", `visited[k] = true`). -/
def isGray (vis : Visited) (k : String) : Prop :=
  vLookup vis k = some true

/-- Key `k` is fully explored ("black", `visited[k] = false`). -/
def isBlack (vis : Visited) (k : String) : Prop :=
  vLookup vis k = some false

/-- The key set of a visited map. -/
def keysF (vis : Visited) : Finset String :=
  (vis.map Prod.fst).toFinset

/-- The set of edge targets of a graph: every node the DFS can recurse
into. -/
def targetsF (g : DepGraph) : Finset String :=
  (g.edges.map DepEdge.eto).toFinset

/-- Every successor of a black node is black: the invariant that DFS
backtracking maintains on the visited map. -/
def blackClosed (g : DepGraph) (vis : Visited) : Prop :=
  ∀ a b, isBlack vis a → hasEdge g a b → isBlack vis b

/-- From `s` some gray node is reachable (or `s` is itself gray): the
condition under which a DFS visit of `s` must report a cycle. -/
def GrayTarget (g : DepGraph) (vis : Visited) (s : String) : Prop :=
  isGray vis s ∨ ∃ y, isGray vis y ∧ ReachG g s y

/-- The frame specification of one DFS step function at fuel bound `n`:
on a `false` return the visited map keeps the black-closure invariant, the
gray set is unchanged, black keys and the key set only grow, and the visited
node itself ends black. -/
def StepFrame (g : DepGraph) (n : Nat)
    (step : String → Visited → List String → Bool × Visited × List String) : Prop :=
  ∀ t vis path, t ∈ targetsF g → blackClosed g vis →
    (targetsF g \ keysF vis).card < n →
    (step t vis path).1 = false →
    blackClosed g (step t vis path).2.1 ∧
    (∀ k, isGray (step t vis path).2.1 k ↔ isGray vis k) ∧
    (∀ k, isBlack vis k → isBlack (step t vis path).2.1 k) ∧
    keysF vis ⊆ keysF (step t vis path).2.1 ∧
    isBlack (step t vis path).2.1 t

/-- The completeness specification of one DFS step function at fuel bound
`n`: visiting a node from which a gray node is reachable reports a cycle. -/
def StepPos (g : DepGraph) (n : Nat)
    (step : String → Visited → List String → Bool × Visited × List String) : Prop :=
  ∀ t vis path, t ∈ targetsF g → blackClosed g vis →
    (targetsF g \ keysF vis).card < n →
    GrayTarget g vis t → (step t vis path).1 = true

/-- The invariants of the `IndexMap` backing `MemorySource`: keys are
pairwise distinct and each stored variable's `key` field matches its map
key. -/
def MemMapInv (s : MemorySource) : Prop :=
  (s.entries.map Prod.fst).Nodup ∧ ∀ p ∈ s.entries, p.2.key = p.1

/-! ## Theorems -/

/-! ### General helper lemmas -/

theorem findIdx?_some_spec {α : Type} {p : α → Bool} {l : List α} {i : Nat}
    (h : l.findIdx? p = some i) : ∃ hlt : i < l.length, p (l.get ⟨i, hlt⟩) = true := by
  induction l generalizing i with
  | nil => simp [List.findIdx?] at h
  | cons x xs ih =>
    rw [List.findIdx?_cons] at h
    by_cases hp : p x = true
    · simp only [hp, if_true] at h
      cases h
      exact ⟨by simp, hp⟩
    · simp only [hp, if_false, List.findIdx?_succ] at h
      cases hi : xs.findIdx? p with
      | none => rw [hi] at h; simp at h
      | some j =>
        rw [hi] at h
        have hij : i = j + 1 := by
          simp only [Option.map] at h
          exact (Option.some_inj.mp h).symm
        subst hij
        obtain ⟨hlt, hj⟩ := ih hi
        exact ⟨by simpa using Nat.succ_lt_succ hlt, by simpa using hj⟩

/-! ### Claim C10: the file source constructor -/

/-- C10: `FileSource::new(path)` fails with `NotFound` exactly when the path
does not exist, and otherwise constructs a source whose id is
`"file:<path>"` with empty caches; it never yields a source for a
nonexistent file. -/
theorem fileSourceNew_spec (fs : List String) (path : String) :
    (fs.contains path = false → fileSourceNew fs path = .error .notFound) ∧
    (fs.contains path = true →
      fileSourceNew fs path =
        .ok { path := path, id := "file:" ++ path, lastModified := none,
              cachedVars := none, version := none, nextVersion := 1 }) := by
  constructor
  · intro h
    simp at h
    simp [fileSourceNew, h]
  · intro h
    simp at h
    simp [fileSourceNew, h]

/-- Witness for C10 at a concrete filesystem. -/
theorem fileSourceNew_spec_witness :
    fileSourceNew ["/w/.env"] "/w/.env.local" = .error .notFound ∧
    fileSourceNew ["/w/.env"] "/w/.env" =
      .ok { path := "/w/.env", id := "file:/w/.env", lastModified := none,
            cachedVars := none, version := none, nextVersion := 1 } :=
  ⟨(fileSourceNew_spec ["/w/.env"] "/w/.env.local").1 (by decide),
   (fileSourceNew_spec ["/w/.env"] "/w/.env").2 (by decide)⟩

/-! ### Claim C9: removing an absent key from the memory source -/

/-- C9: `MemorySource::remove(k)` on a key not present in the map returns
`None` and leaves the state untouched (no version bump, same variables), so
a subsequent `load` equals a load performed before the call. -/
theorem memRemove_absent (s : MemorySource) (k : String)
    (habs : ∀ p ∈ s.entries, p.1 ≠ k) :
    (memRemove s k).1 = none ∧ (memRemove s k).2 = s ∧
    memLoad (memRemove s k).2 = memLoad s := by
  have hidx : s.entries.findIdx? (fun p => p.1 = k) = none := by
    rw [List.findIdx?_eq_none_iff]
    intro p hp
    simpa using habs p hp
  unfold memRemove
  rw [hidx]
  exact ⟨rfl, rfl, rfl⟩

/-- Witness for C9 at a concrete state. -/
theorem memRemove_absent_witness :
    (memRemove (memSet memNew "K" "v") "X").1 = none ∧
    (memRemove (memSet memNew "K" "v") "X").2 = memSet memNew "K" "v" ∧
    memLoad (memRemove (memSet memNew "K" "v") "X").2 = memLoad (memSet memNew "K" "v") :=
  memRemove_absent (memSet memNew "K" "v") "X" (by decide)

/-! ### Claim C2: depth bound -/

/-- Counterexample to C2 as stated: for the file `A=${A}` with
`type_check = false` and `max_depth = 4`, `get("A")` does not return
`MaxDepthExceeded{key: "A", depth: 4}` — the resolution succeeds. -/
theorem resolve_selfRef_not_maxDepth :
    resolve rcNoTC ic4 0 "A" [snapSelfA] ≠
      .error (.maxDepthExceeded "A" 4) := by decide

/-- C2 (amended): recursive interpolation always terminates, but with
`type_check = false` it does not fail: `interpolate_value_lazy` silently
truncates the recursion at `max_depth`, so for `A=${A}` with `max_depth = 4`
the resolution returns `Ok` with the reference left unexpanded.
`MaxDepthExceeded{key, depth}` is produced by `resolve_variable` only when
`depth ≥ max_depth` already holds on entry, i.e. (from the engine's
top-level calls at depth `0`) only when `max_depth = 0`. -/
theorem resolve_depth_truncation :
    (resolve rcNoTC ic4 0 "A" [snapSelfA] =
      .ok (some { key := "A", rawValue := "${A}", resolvedValue := "${A}",
                  source := .file "/w/.env" 0, description := none,
                  hasWarnings := false, interpolationDepth := 0 })) ∧
    (∀ (icfg : InterpolationConfig) (v : ParsedVariable)
        (snaps : List SourceSnapshot) (visited : List String),
      icfg.enabled = true → icfg.maxDepth = 0 →
      resolveVariable icfg v snaps 0 visited = .error (.maxDepthExceeded v.key 0)) := by
  constructor
  · decide
  · intro icfg v snaps visited hen hmd
    unfold resolveVariable
    rw [hen, hmd]
    simp

/-- Witness for C2's amended `max_depth = 0` clause. -/
theorem resolve_depth_truncation_witness :
    resolveVariable { enabled := true, maxDepth := 0 } varAtoA [] 0 [] =
      .error (.maxDepthExceeded "A" 0) :=
  resolve_depth_truncation.2 { enabled := true, maxDepth := 0 } varAtoA [] [] rfl rfl

/-! ### Claim C4: the reported cycle chain -/

/-- Counterexample to C4 as stated: for the file `A=${B}`, `B=${A}` with
`type_check = true`, the `CircularDependency` chain is not the string
`"A -> B"`. -/
theorem resolve_cycle_chain_not_AB :
    resolve rcDefault icDefault 0 "A" [snapCycleAB] ≠
      .error (.circularDependency "A -> B") := by decide

/-- C4 (amended): for the file `A=${B}`, `B=${A}` with `type_check = true`,
`get("A")` fails with a `CircularDependency` whose chain is the DFS path at
the moment of detection with the originating variable key appended:
`"A -> B -> A"`. -/
theorem resolve_cycle_chain :
    resolve rcDefault icDefault 0 "A" [snapCycleAB] =
      .error (.circularDependency "A -> B -> A") ∧
    detectCycleWithState (DepGraph.mk (buildGraphEdges [snapCycleAB])) "A" = ["A", "B"] := by
  decide

/-! ### Claim C5: basic precedence (scenario S1) -/

/-- C5: with a shell source `FOO=shell`, a file source `/w/.env` with
`FOO=file`, precedence `[shell, file]`, mode Merge and
`files.order = [".env"]`, resolving `FOO` yields `"file"`: the shell
snapshot gets ordering key `0` and sorts before the file snapshot (key `1`),
and the last snapshot in sorted order wins the Merge iteration. -/
theorem resolve_basic_precedence :
    resolve rcS1 icDefault 0 "FOO" [snapShellFoo, snapFileFoo] =
      .ok (some { key := "FOO", rawValue := "file", resolvedValue := "file",
                  source := .file "/w/.env" 0, description := none,
                  hasWarnings := false, interpolationDepth := 0 }) ∧
    getFileOrderIndex "shell:process" [".env"] = 0 ∧
    getFileOrderIndex "file:/w/.env" [".env"] = 1 ∧
    sortSnapshotsByFileOrder rcS1 [snapShellFoo, snapFileFoo] =
      [snapShellFoo, snapFileFoo] := by
  decide

/-! ### Claim C3: precedence filtering -/

/-- Counterexample to C3 as stated: with an empty precedence list, a plain
single-key `resolve` still lets the shell snapshot participate and returns
its value — `resolve_inner` applies no precedence filter, so the result is
not empty. -/
theorem resolve_empty_precedence_not_empty :
    resolve rcEmptyPrec icDefault 0 "FOO" [snapShellFoo] =
      .ok (some { key := "FOO", rawValue := "shell", resolvedValue := "shell",
                  source := .shell, description := none,
                  hasWarnings := false, interpolationDepth := 0 }) := by
  decide

/-- C3 (amended): for `all_variables` (and the `*_with_filter` paths, which
share `filter_by_source_type`) a snapshot is retained iff the precedence
list is non-empty and, when the source id classifies as file/shell/remote,
that class appears in the precedence list; unrecognized prefixes pass
unconditionally.  An empty precedence list makes `all_variables` return no
results.  Plain single-key `resolve`, however, applies no precedence filter:
`resolve_inner` reads only `files.order` and `type_check`, so its result is
independent of the precedence list (and of the merge mode). -/
theorem precedence_filter_spec :
    (∀ (rcfg : ResolutionConfig) (snaps : List SourceSnapshot) (s : SourceSnapshot),
      s ∈ filterBySourceType rcfg snaps ↔
        s ∈ snaps ∧ rcfg.precedence ≠ [] ∧
        ∀ t, classifySourceId s.sourceId = some t → t ∈ rcfg.precedence) ∧
    (∀ (rcfg : ResolutionConfig) (icfg : InterpolationConfig)
        (allS fS : List SourceSnapshot), rcfg.precedence = [] →
      allVariablesInner rcfg icfg allS fS = .ok []) ∧
    (∀ (p1 p2 : List SourcePrecedence) (m1 m2 : FileMergeMode) (fo : List String)
        (tc : Bool) (icfg : InterpolationConfig) (key : String)
        (snaps : List SourceSnapshot),
      resolveInner ⟨p1, m1, fo, tc⟩ icfg key snaps =
        resolveInner ⟨p2, m2, fo, tc⟩ icfg key snaps) := by
  refine ⟨?_, ?_, ?_⟩
  · intro rcfg snaps s
    unfold filterBySourceType
    by_cases hpre : rcfg.precedence = []
    · simp [hpre]
    · rw [if_neg hpre]
      rw [List.mem_filter]
      cases hc : classifySourceId s.sourceId with
      | none => simp [hc, hpre]
      | some t0 => simp [hc, hpre]
  · intro rcfg icfg allS fS h
    have h1 : filterBySourceType rcfg fS = [] := by
      simp [filterBySourceType, h]
    have h2 : sortSnapshotsByFileOrder rcfg (filterBySourceType rcfg fS) = [] := by
      rw [h1]
      simp [sortSnapshotsByFileOrder]
    unfold allVariablesInner
    rw [h2]
    rfl
  · intro p1 p2 m1 m2 fo tc icfg key snaps
    rfl

/-- Witness for C3's empty-precedence clause. -/
theorem precedence_filter_spec_witness :
    allVariablesInner rcEmptyPrec icDefault [snapShellFoo] [snapShellFoo] = .ok [] :=
  precedence_filter_spec.2.1 rcEmptyPrec icDefault [snapShellFoo] [snapShellFoo] rfl

/-! ### Claim C8: `has_warnings` is constantly false -/

theorem resolveVariable_ok_noWarnings {icfg : InterpolationConfig} {v : ParsedVariable}
    {snaps : List SourceSnapshot} {d : Nat} {vis : List String} {r : ResolvedVariable}
    (h : resolveVariable icfg v snaps d vis = .ok r) : r.hasWarnings = false := by
  unfold resolveVariable at h
  split_ifs at h
  · cases h; rfl
  · cases h; rfl

theorem resolveVariable_zero_not_circular (icfg : InterpolationConfig) (v : ParsedVariable)
    (snaps : List SourceSnapshot) (c : String) :
    resolveVariable icfg v snaps 0 [] ≠ .error (.circularDependency c) := by
  unfold resolveVariable
  split_ifs with h1 h2 h3
  · simp
  · simp
  · simp at h3
  · simp

theorem resolveLoop_ok_some_noWarnings {icfg : InterpolationConfig} {key : String}
    {allS : List SourceSnapshot} {l : List SourceSnapshot} {acc : Option ResolvedVariable}
    {r : ResolvedVariable}
    (hacc : ∀ a, acc = some a → a.hasWarnings = false)
    (h : resolveLoop icfg key allS l acc = .ok (some r)) : r.hasWarnings = false := by
  induction l generalizing acc with
  | nil =>
    unfold resolveLoop at h
    injection h with h
    exact hacc r h
  | cons s rest ih =>
    unfold resolveLoop at h
    split at h
    · split at h
      · rename_i v hfind rv hres
        refine ih (fun a ha => ?_) h
        cases ha
        exact resolveVariable_ok_noWarnings hres
      · cases h
    · exact ih hacc h

theorem resolveLoop_error_shape {icfg : InterpolationConfig} {key : String}
    {allS : List SourceSnapshot} {l : List SourceSnapshot} {acc : Option ResolvedVariable}
    {e : AbError} (h : resolveLoop icfg key allS l acc = .error e) :
    ∃ k d, e = .maxDepthExceeded k d := by
  induction l generalizing acc with
  | nil => unfold resolveLoop at h; cases h
  | cons s rest ih =>
    unfold resolveLoop at h
    split at h
    · split at h
      · rename_i v hfind rv hres
        exact ih h
      · rename_i e2 hres
        injection h with h
        subst h
        cases e2 with
        | circularDependency c =>
          exact absurd hres (resolveVariable_zero_not_circular _ _ _ _)
        | maxDepthExceeded k d => exact ⟨k, d, rfl⟩
    · exact ih h

theorem resolveInner_ok_some_noWarnings {rcfg : ResolutionConfig} {icfg : InterpolationConfig}
    {key : String} {snaps : List SourceSnapshot} {r : ResolvedVariable}
    (h : resolveInner rcfg icfg key snaps = .ok (some r)) : r.hasWarnings = false := by
  unfold resolveInner at h
  split at h
  · cases h
  · cases h
  · rename_i var hloop
    have hw : var.hasWarnings = false :=
      resolveLoop_ok_some_noWarnings (fun a ha => by cases ha) hloop
    rw [hw] at h
    simp at h
    rw [← h]
    exact hw

theorem resolveInner_not_circular (rcfg : ResolutionConfig) (icfg : InterpolationConfig)
    (key : String) (snaps : List SourceSnapshot) (c : String) :
    resolveInner rcfg icfg key snaps ≠ .error (.circularDependency c) := by
  unfold resolveInner
  split
  · rename_i e hloop
    intro h
    injection h with h
    subst h
    obtain ⟨k, d, hkd⟩ := resolveLoop_error_shape hloop
    simp at hkd
  · simp
  · rename_i var hloop
    have hw : var.hasWarnings = false :=
      resolveLoop_ok_some_noWarnings (fun a ha => by cases ha) hloop
    rw [hw]
    simp

theorem resolveFilteredInner_ok_some_noWarnings {rcfg : ResolutionConfig}
    {icfg : InterpolationConfig} {key : String} {snaps : List SourceSnapshot}
    {filt : Option (List String)} {r : ResolvedVariable}
    (h : resolveFilteredInner rcfg icfg key snaps filt = .ok (some r)) :
    r.hasWarnings = false := by
  unfold resolveFilteredInner at h
  split at h
  · cases h
  · cases h
  · rename_i var hloop
    have hw : var.hasWarnings = false :=
      resolveLoop_ok_some_noWarnings (fun a ha => by cases ha) hloop
    rw [hw] at h
    simp at h
    rw [← h]
    exact hw

theorem resolveFilteredInner_not_circular (rcfg : ResolutionConfig)
    (icfg : InterpolationConfig) (key : String) (snaps : List SourceSnapshot)
    (filt : Option (List String)) (c : String) :
    resolveFilteredInner rcfg icfg key snaps filt ≠ .error (.circularDependency c) := by
  unfold resolveFilteredInner
  split
  · rename_i e hloop
    intro h
    injection h with h
    subst h
    obtain ⟨k, d, hkd⟩ := resolveLoop_error_shape hloop
    simp at hkd
  · simp
  · rename_i var hloop
    have hw : var.hasWarnings = false :=
      resolveLoop_ok_some_noWarnings (fun a ha => by cases ha) hloop
    rw [hw]
    simp

theorem collectLoop_noWarnings {icfg : InterpolationConfig} {allS : List SourceSnapshot}
    {l : List ParsedVariable} {seen : List String} {res : List ResolvedVariable}
    (h : collectLoop icfg allS l seen = .ok res) :
    ∀ r ∈ res, r.hasWarnings = false := by
  induction l generalizing seen res with
  | nil =>
    unfold collectLoop at h
    injection h with h
    subst h
    simp
  | cons v rest ih =>
    unfold collectLoop at h
    split at h
    · exact ih h
    · split at h
      · cases h
      · rename_i r0 hres
        split at h
        · cases h
        · rename_i others hcol
          injection h with h
          subst h
          intro r hrmem
          rcases List.mem_cons.mp hrmem with hEq | hMem
          · subst hEq
            exact resolveVariable_ok_noWarnings hres
          · exact ih hcol r hMem

/-- C8: every `ResolvedVariable` produced by the engine (via
`resolve_variable`, `resolve_inner`, `resolve_with_filter`'s body, or
`all_variables_inner`) has `has_warnings = false` — both construction paths
set the flag to `false` and nothing ever sets it — and consequently the
`has_warnings`-driven `CircularDependency` check in `resolve_inner` (and in
`resolve_with_filter`) never fires: those functions never return a
`CircularDependency` error at all. -/
theorem has_warnings_constantly_false :
    (∀ (icfg : InterpolationConfig) (v : ParsedVariable) (snaps : List SourceSnapshot)
        (d : Nat) (vis : List String) (r : ResolvedVariable),
      resolveVariable icfg v snaps d vis = .ok r → r.hasWarnings = false) ∧
    (∀ (rcfg : ResolutionConfig) (icfg : InterpolationConfig) (key : String)
        (snaps : List SourceSnapshot) (r : ResolvedVariable),
      resolveInner rcfg icfg key snaps = .ok (some r) → r.hasWarnings = false) ∧
    (∀ (rcfg : ResolutionConfig) (icfg : InterpolationConfig) (key : String)
        (snaps : List SourceSnapshot) (filt : Option (List String)) (r : ResolvedVariable),
      resolveFilteredInner rcfg icfg key snaps filt = .ok (some r) →
        r.hasWarnings = false) ∧
    (∀ (rcfg : ResolutionConfig) (icfg : InterpolationConfig)
        (allS fS : List SourceSnapshot) (res : List ResolvedVariable),
      allVariablesInner rcfg icfg allS fS = .ok res → ∀ r ∈ res, r.hasWarnings = false) ∧
    (∀ (rcfg : ResolutionConfig) (icfg : InterpolationConfig) (key : String)
        (snaps : List SourceSnapshot) (c : String),
      resolveInner rcfg icfg key snaps ≠ .error (.circularDependency c)) ∧
    (∀ (rcfg : ResolutionConfig) (icfg : InterpolationConfig) (key : String)
        (snaps : List SourceSnapshot) (filt : Option (List String)) (c : String),
      resolveFilteredInner rcfg icfg key snaps filt ≠ .error (.circularDependency c)) :=
  ⟨fun _ _ _ _ _ _ h => resolveVariable_ok_noWarnings h,
   fun _ _ _ _ _ h => resolveInner_ok_some_noWarnings h,
   fun _ _ _ _ _ _ h => resolveFilteredInner_ok_some_noWarnings h,
   fun _ _ _ _ _ h => collectLoop_noWarnings h,
   fun rcfg icfg key snaps c => resolveInner_not_circular rcfg icfg key snaps c,
   fun rcfg icfg key snaps filt c =>
     resolveFilteredInner_not_circular rcfg icfg key snaps filt c⟩

/-! ### DFS cycle detection: vocabulary lemmas (for claim C1) -/

theorem vLookup_vInsert_self (vis : Visited) (k : String) (b : Bool) :
    vLookup (vInsert vis k b) k = some b := by
  simp [vInsert, vLookup]

theorem vLookup_vInsert_ne (vis : Visited) {k k2 : String} (b : Bool) (h : k ≠ k2) :
    vLookup (vInsert vis k b) k2 = vLookup vis k2 := by
  simp [vInsert, vLookup, h]

theorem keysF_vInsert (vis : Visited) (k : String) (b : Bool) :
    keysF (vInsert vis k b) = insert k (keysF vis) := by
  simp [keysF, vInsert]

theorem mem_keysF_iff {vis : Visited} {k : String} :
    k ∈ keysF vis ↔ vLookup vis k ≠ none := by
  induction vis with
  | nil => simp [keysF, vLookup]
  | cons p rest ih =>
    obtain ⟨k1, b1⟩ := p
    by_cases h : k1 = k
    · subst h
      simp [keysF, vLookup]
    · have h2 : ¬ k = k1 := fun hh => h hh.symm
      simp only [keysF, List.map_cons, List.toFinset_cons, Finset.mem_insert] at *
      simp [vLookup, h, h2, ih]

theorem mem_successors {g : DepGraph} {a b : String} :
    b ∈ successors g a ↔ hasEdge g a b := by
  constructor
  · intro h
    obtain ⟨e, he, hto⟩ := List.mem_map.mp h
    have he2 := List.mem_filter.mp he
    obtain ⟨f, t⟩ := e
    have hfrom : f = a := by simpa using he2.2
    have ht : t = b := hto
    subst hfrom
    subst ht
    exact he2.1
  · intro h
    apply List.mem_map.mpr
    refine ⟨DepEdge.mk a b, ?_, rfl⟩
    apply List.mem_filter.mpr
    exact ⟨h, by simp⟩

theorem successors_subset_targets {g : DepGraph} {a t : String}
    (h : t ∈ successors g a) : t ∈ targetsF g := by
  simp only [successors, List.mem_map, List.mem_filter] at h
  obtain ⟨e, ⟨he, _⟩, hto⟩ := h
  simp only [targetsF, List.mem_toFinset, List.mem_map]
  exact ⟨e, he, hto⟩

theorem targetsF_card_le (g : DepGraph) : (targetsF g).card ≤ g.edges.length := by
  calc (targetsF g).card ≤ (g.edges.map DepEdge.eto).length :=
        List.toFinset_card_le _
    _ = g.edges.length := by simp

theorem black_of_reach {g : DepGraph} {vis : Visited} {a y : String}
    (hbc : blackClosed g vis) (hb : isBlack vis a) (hr : ReachG g a y) :
    isBlack vis y := by
  induction hr with
  | single he => exact hbc _ _ hb he
  | head he _ ih => exact ih (hbc _ _ hb he)

theorem not_gray_of_black {vis : Visited} {k : String}
    (hb : isBlack vis k) (hg : isGray vis k) : False := by
  rw [isBlack] at hb
  rw [isGray] at hg
  rw [hb] at hg
  cases hg

/-! ### DFS cycle detection: path restoration (for claim C1) -/

theorem dfsChildren_path
    {step : String → Visited → List String → Bool × Visited × List String}
    (hF : ∀ t v p, (step t v p).1 = false → (step t v p).2.2 = p)
    (hT : ∀ t v p, (step t v p).1 = true → ∃ ext, (step t v p).2.2 = p ++ ext)
    (cur : String) :
    ∀ (ts : List String) (vis : Visited) (path : List String),
      ((dfsChildren step cur ts vis path).1 = false →
        (dfsChildren step cur ts vis path).2.2 = path.dropLast) ∧
      ((dfsChildren step cur ts vis path).1 = true →
        ∃ ext, (dfsChildren step cur ts vis path).2.2 = path ++ ext) := by
  intro ts
  induction ts with
  | nil =>
    intro vis path
    constructor
    · intro _
      rfl
    · intro h
      cases h
  | cons t ts2 ih =>
    intro vis path
    unfold dfsChildren
    cases hr : (step t vis path).1 with
    | true =>
      rw [if_pos hr]
      constructor
      · intro h
        rw [hr] at h
        cases h
      · intro _
        exact hT t vis path hr
    | false =>
      rw [if_neg (by rw [hr]; simp)]
      have hpr : (step t vis path).2.2 = path := hF t vis path hr
      rw [hpr]
      exact ih (step t vis path).2.1 path

theorem dfsDetect_path (g : DepGraph) :
    ∀ (f : Nat) (cur : String) (vis : Visited) (path : List String),
      ((dfsDetect g f cur vis path).1 = false →
        (dfsDetect g f cur vis path).2.2 = path) ∧
      ((dfsDetect g f cur vis path).1 = true →
        ∃ ext, (dfsDetect g f cur vis path).2.2 = path ++ ext) := by
  intro f
  induction f with
  | zero =>
    intro cur vis path
    exact ⟨fun _ => rfl, fun h => by cases h⟩
  | succ f ih =>
    intro cur vis path
    cases hl : vLookup vis cur with
    | some b =>
      have hd : dfsDetect g (f + 1) cur vis path = (b, vis, path) := by
        unfold dfsDetect
        rw [hl]
      rw [hd]
      exact ⟨fun _ => rfl, fun _ => ⟨[], by simp⟩⟩
    | none =>
      have hd : dfsDetect g (f + 1) cur vis path =
          dfsChildren (fun a v p => dfsDetect g f a v p) cur (successors g cur)
            (vInsert vis cur true) (path ++ [cur]) := by
        simp only [dfsDetect]
        rw [hl]
      rw [hd]
      have hch := dfsChildren_path (fun t v p => (ih t v p).1) (fun t v p => (ih t v p).2)
        cur (successors g cur) (vInsert vis cur true) (path ++ [cur])
      constructor
      · intro h
        rw [hch.1 h]
        exact List.dropLast_concat
      · intro h
        obtain ⟨ext, hext⟩ := hch.2 h
        exact ⟨[cur] ++ ext, by rw [hext, List.append_assoc]⟩

/-! ### DFS cycle detection: visited-map color lemmas (for claim C1) -/

theorem isGray_vInsert_true_iff (vis : Visited) (k x : String) :
    isGray (vInsert vis k true) x ↔ (x = k ∨ isGray vis x) := by
  by_cases h : x = k
  · subst h
    simp [isGray, vLookup_vInsert_self]
  · rw [isGray, isGray, vLookup_vInsert_ne vis true (fun hh => h hh.symm)]
    simp [h]

theorem isBlack_vInsert_true_iff (vis : Visited) (k x : String)
    (hwhite : vLookup vis k = none) :
    isBlack (vInsert vis k true) x ↔ isBlack vis x := by
  by_cases h : x = k
  · subst h
    rw [isBlack, isBlack, vLookup_vInsert_self, hwhite]
    simp
  · rw [isBlack, isBlack, vLookup_vInsert_ne vis true (fun hh => h hh.symm)]

theorem isBlack_vInsert_false_iff (vis : Visited) (k x : String) :
    isBlack (vInsert vis k false) x ↔ (x = k ∨ isBlack vis x) := by
  by_cases h : x = k
  · subst h
    simp [isBlack, vLookup_vInsert_self]
  · rw [isBlack, isBlack, vLookup_vInsert_ne vis false (fun hh => h hh.symm)]
    simp [h]

theorem isGray_vInsert_false_iff (vis : Visited) (k x : String) :
    isGray (vInsert vis k false) x ↔ (x ≠ k ∧ isGray vis x) := by
  by_cases h : x = k
  · subst h
    simp [isGray, vLookup_vInsert_self]
  · rw [isGray, isGray, vLookup_vInsert_ne vis false (fun hh => h hh.symm)]
    simp [h]

/-! ### DFS cycle detection: the frame and completeness lemmas of the
children loop (for claim C1) -/

theorem dfsChildren_frame {g : DepGraph} {n : Nat}
    {step : String → Visited → List String → Bool × Visited × List String}
    (hstep : StepFrame g n step) :
    ∀ (ts : List String) (cur : String) (vis : Visited) (path : List String),
      blackClosed g vis → isGray vis cur →
      (targetsF g \ keysF vis).card < n →
      (∀ t ∈ ts, t ∈ targetsF g) →
      (∀ b, hasEdge g cur b → b ∈ ts ∨ isBlack vis b) →
      (dfsChildren step cur ts vis path).1 = false →
      blackClosed g (dfsChildren step cur ts vis path).2.1 ∧
      (∀ k, isGray (dfsChildren step cur ts vis path).2.1 k ↔ (isGray vis k ∧ k ≠ cur)) ∧
      (∀ k, isBlack vis k → isBlack (dfsChildren step cur ts vis path).2.1 k) ∧
      keysF vis ⊆ keysF (dfsChildren step cur ts vis path).2.1 ∧
      isBlack (dfsChildren step cur ts vis path).2.1 cur := by
  intro ts
  induction ts with
  | nil =>
    intro cur vis path hbc hg hcard hts hsucc hres
    simp only [dfsChildren]
    refine ⟨?_, ?_, ?_, ?_, ?_⟩
    · intro a b hba hedge
      rw [isBlack_vInsert_false_iff] at hba
      rw [isBlack_vInsert_false_iff]
      rcases hba with hEq | hb
      · subst hEq
        rcases hsucc b hedge with hmem | hb2
        · cases hmem
        · right
          exact hb2
      · right
        exact hbc a b hb hedge
    · intro k
      rw [isGray_vInsert_false_iff]
      exact and_comm
    · intro k hb
      rw [isBlack_vInsert_false_iff]
      right
      exact hb
    · rw [keysF_vInsert]
      exact Finset.subset_insert _ _
    · rw [isBlack]
      exact vLookup_vInsert_self vis cur false
  | cons t ts2 ih =>
    intro cur vis path hbc hg hcard hts hsucc hres
    simp only [dfsChildren] at hres ⊢
    cases hr : (step t vis path).1 with
    | true =>
      rw [if_pos hr] at hres
      rw [hr] at hres
      cases hres
    | false =>
      rw [if_neg (by simp : ¬(false = true))]
      rw [if_neg (by rw [hr]; simp)] at hres
      obtain ⟨hbc1, hgr1, hbk1, hkeys1, hblkt⟩ :=
        hstep t vis path (hts t (by simp)) hbc hcard hr
      have hcard2 : (targetsF g \ keysF (step t vis path).2.1).card < n :=
        lt_of_le_of_lt
          (Finset.card_le_card (Finset.sdiff_subset_sdiff (Finset.Subset.refl _) hkeys1))
          hcard
      have hg2 : isGray (step t vis path).2.1 cur := (hgr1 cur).mpr hg
      have hsucc2 : ∀ b, hasEdge g cur b → b ∈ ts2 ∨ isBlack (step t vis path).2.1 b := by
        intro b he
        rcases hsucc b he with hmem | hb
        · rcases List.mem_cons.mp hmem with hEq | hMem
          · subst hEq
            right
            exact hblkt
          · left
            exact hMem
        · right
          exact hbk1 b hb
      obtain ⟨hbcF, hgrF, hbkF, hkeysF, hblkF⟩ :=
        ih cur (step t vis path).2.1 (step t vis path).2.2 hbc1 hg2 hcard2
          (fun x hx => hts x (by simp [hx])) hsucc2 hres
      refine ⟨hbcF, ?_, ?_, ?_, hblkF⟩
      · intro k
        rw [hgrF k, hgr1 k]
      · intro k hb
        exact hbkF k (hbk1 k hb)
      · exact hkeys1.trans hkeysF

theorem dfsChildren_pos {g : DepGraph} {n : Nat}
    {step : String → Visited → List String → Bool × Visited × List String}
    (hstepF : StepFrame g n step) (hstepP : StepPos g n step) :
    ∀ (ts : List String) (cur : String) (vis : Visited) (path : List String),
      blackClosed g vis →
      (targetsF g \ keysF vis).card < n →
      (∀ t ∈ ts, t ∈ targetsF g) →
      (∃ s ∈ ts, GrayTarget g vis s) →
      (dfsChildren step cur ts vis path).1 = true := by
  intro ts
  induction ts with
  | nil =>
    rintro cur vis path _ _ _ ⟨s, hs, _⟩
    cases hs
  | cons t ts2 ih =>
    rintro cur vis path hbc hcard hts ⟨s, hs, hgt⟩
    simp only [dfsChildren]
    cases hr : (step t vis path).1 with
    | true =>
      rw [if_pos rfl]
      exact hr
    | false =>
      rw [if_neg (by simp : ¬(false = true))]
      rcases List.mem_cons.mp hs with hEq | hMem
      · subst hEq
        exact absurd (hstepP s vis path (hts s (by simp)) hbc hcard hgt)
          (by rw [hr]; simp)
      · obtain ⟨hbc1, hgr1, hbk1, hkeys1, _⟩ :=
          hstepF t vis path (hts t (by simp)) hbc hcard hr
        have hcard2 : (targetsF g \ keysF (step t vis path).2.1).card < n :=
          lt_of_le_of_lt
            (Finset.card_le_card (Finset.sdiff_subset_sdiff (Finset.Subset.refl _) hkeys1))
            hcard
        refine ih cur (step t vis path).2.1 (step t vis path).2.2 hbc1 hcard2
          (fun x hx => hts x (by simp [hx])) ⟨s, hMem, ?_⟩
        rcases hgt with hgs | ⟨y, hy, hr2⟩
        · exact Or.inl ((hgr1 s).mpr hgs)
        · exact Or.inr ⟨y, (hgr1 y).mpr hy, hr2⟩

/-! ### DFS cycle detection: the main fuel induction (for claim C1) -/

theorem dfsDetect_spec (g : DepGraph) :
    ∀ f : Nat, StepFrame g f (dfsDetect g f) ∧ StepPos g f (dfsDetect g f) := by
  intro f
  induction f with
  | zero =>
    constructor
    · intro t vis path _ _ hcard
      exact absurd hcard (by simp)
    · intro t vis path _ _ hcard
      exact absurd hcard (by simp)
  | succ f ih =>
    have hframe : StepFrame g (f + 1) (dfsDetect g (f + 1)) := by
      intro t vis path ht hbc hcard hres
      cases hl : vLookup vis t with
      | some b =>
        have hd : dfsDetect g (f + 1) t vis path = (b, vis, path) := by
          simp only [dfsDetect]
          rw [hl]
        rw [hd] at hres ⊢
        cases b with
        | true => cases hres
        | false =>
          exact ⟨hbc, fun k => Iff.rfl, fun k hb => hb, Finset.Subset.refl _, hl⟩
      | none =>
        have hd : dfsDetect g (f + 1) t vis path =
            dfsChildren (fun a v p => dfsDetect g f a v p) t (successors g t)
              (vInsert vis t true) (path ++ [t]) := by
          simp only [dfsDetect]
          rw [hl]
        rw [hd] at hres ⊢
        have htm : t ∈ targetsF g \ keysF vis :=
          Finset.mem_sdiff.mpr ⟨ht, fun hmem => (mem_keysF_iff.mp hmem) hl⟩
        have hcard2 : (targetsF g \ keysF (vInsert vis t true)).card < f := by
          rw [keysF_vInsert, Finset.sdiff_insert]
          have h1 := Finset.card_erase_of_mem htm
          have h2 : 0 < (targetsF g \ keysF vis).card := Finset.card_pos.mpr ⟨t, htm⟩
          omega
        have hbc1 : blackClosed g (vInsert vis t true) := by
          intro a b hba hedge
          rw [isBlack_vInsert_true_iff vis t a hl] at hba
          rw [isBlack_vInsert_true_iff vis t b hl]
          exact hbc a b hba hedge
        have hg1 : isGray (vInsert vis t true) t := vLookup_vInsert_self vis t true
        obtain ⟨hbcF, hgrF, hbkF, hkeysF, hblkF⟩ :=
          dfsChildren_frame ih.1 (successors g t) t (vInsert vis t true) (path ++ [t])
            hbc1 hg1 hcard2 (fun x hx => successors_subset_targets hx)
            (fun b he => Or.inl (mem_successors.mpr he)) hres
        refine ⟨hbcF, ?_, ?_, ?_, hblkF⟩
        · intro k
          rw [hgrF k, isGray_vInsert_true_iff]
          constructor
          · rintro ⟨hk | hk, hkt⟩
            · exact absurd hk hkt
            · exact hk
          · intro hk
            refine ⟨Or.inr hk, ?_⟩
            intro hEq
            subst hEq
            rw [isGray, hl] at hk
            cases hk
        · intro k hb
          refine hbkF k ?_
          rw [isBlack_vInsert_true_iff vis t k hl]
          exact hb
        · refine Finset.Subset.trans ?_ hkeysF
          rw [keysF_vInsert]
          exact Finset.subset_insert _ _
    refine ⟨hframe, ?_⟩
    intro t vis path ht hbc hcard hgt
    cases hl : vLookup vis t with
    | some b =>
      have hd : dfsDetect g (f + 1) t vis path = (b, vis, path) := by
        simp only [dfsDetect]
        rw [hl]
      rw [hd]
      cases b with
      | true => rfl
      | false =>
        exfalso
        have hbt : isBlack vis t := hl
        rcases hgt with hg | ⟨y, hy, hr2⟩
        · exact not_gray_of_black hbt hg
        · exact not_gray_of_black (black_of_reach hbc hbt hr2) hy
    | none =>
      have hd : dfsDetect g (f + 1) t vis path =
          dfsChildren (fun a v p => dfsDetect g f a v p) t (successors g t)
            (vInsert vis t true) (path ++ [t]) := by
        simp only [dfsDetect]
        rw [hl]
      rw [hd]
      have htm : t ∈ targetsF g \ keysF vis :=
        Finset.mem_sdiff.mpr ⟨ht, fun hmem => (mem_keysF_iff.mp hmem) hl⟩
      have hcard2 : (targetsF g \ keysF (vInsert vis t true)).card < f := by
        rw [keysF_vInsert, Finset.sdiff_insert]
        have h1 := Finset.card_erase_of_mem htm
        have h2 : 0 < (targetsF g \ keysF vis).card := Finset.card_pos.mpr ⟨t, htm⟩
        omega
      have hbc1 : blackClosed g (vInsert vis t true) := by
        intro a b hba hedge
        rw [isBlack_vInsert_true_iff vis t a hl] at hba
        rw [isBlack_vInsert_true_iff vis t b hl]
        exact hbc a b hba hedge
      refine dfsChildren_pos ih.1 ih.2 (successors g t) t (vInsert vis t true)
        (path ++ [t]) hbc1 hcard2 (fun x hx => successors_subset_targets hx) ?_
      rcases hgt with hg | ⟨y, hy, hr2⟩
      · exfalso
        rw [isGray, hl] at hg
        cases hg
      · cases hr2 with
        | single he =>
          refine ⟨y, mem_successors.mpr he, Or.inl ?_⟩
          rw [isGray_vInsert_true_iff]
          right
          exact hy
        | head he hr3 =>
          refine ⟨_, mem_successors.mpr he, Or.inr ⟨y, ?_, hr3⟩⟩
          rw [isGray_vInsert_true_iff]
          right
          exact hy

/-! ### DFS cycle detection: endgame (for claim C1) -/

theorem detect_cycle_of_reach {g : DepGraph} {v : String} (hcyc : ReachG g v v) :
    detectCycleWithState g v ≠ [] := by
  have h21 : g.edges.length + 2 = (g.edges.length + 1) + 1 := rfl
  have hl : vLookup ([] : Visited) v = none := rfl
  have hd : dfsDetect g ((g.edges.length + 1) + 1) v [] [] =
      dfsChildren (fun a v2 p => dfsDetect g (g.edges.length + 1) a v2 p) v
        (successors g v) (vInsert [] v true) ([] ++ [v]) := by
    simp only [dfsDetect]
    rw [hl]
  have hcard2 : (targetsF g \ keysF (vInsert [] v true)).card < g.edges.length + 1 := by
    have h1 : (targetsF g \ keysF (vInsert [] v true)).card ≤ (targetsF g).card :=
      Finset.card_le_card Finset.sdiff_subset
    have h2 := targetsF_card_le g
    omega
  have hbc1 : blackClosed g (vInsert [] v true) := by
    intro a b hba _
    rw [isBlack] at hba
    by_cases hav : a = v
    · subst hav
      rw [vLookup_vInsert_self] at hba
      cases hba
    · rw [vLookup_vInsert_ne [] true (fun hh => hav hh.symm)] at hba
      cases hba
  have hex : ∃ s ∈ successors g v, GrayTarget g (vInsert [] v true) s := by
    cases hcyc with
    | single he =>
      exact ⟨v, mem_successors.mpr he, Or.inl (vLookup_vInsert_self [] v true)⟩
    | head he hr3 =>
      exact ⟨_, mem_successors.mpr he,
        Or.inr ⟨v, vLookup_vInsert_self [] v true, hr3⟩⟩
  have htrue : (dfsChildren (fun a v2 p => dfsDetect g (g.edges.length + 1) a v2 p) v
      (successors g v) (vInsert [] v true) ([] ++ [v])).1 = true :=
    dfsChildren_pos (dfsDetect_spec g (g.edges.length + 1)).1
      (dfsDetect_spec g (g.edges.length + 1)).2 (successors g v) v
      (vInsert [] v true) ([] ++ [v]) hbc1 hcard2
      (fun x hx => successors_subset_targets hx) hex
  have hpath := (dfsChildren_path
      (fun t v2 p => (dfsDetect_path g (g.edges.length + 1) t v2 p).1)
      (fun t v2 p => (dfsDetect_path g (g.edges.length + 1) t v2 p).2)
      v (successors g v) (vInsert [] v true) ([] ++ [v])).2 htrue
  obtain ⟨ext, hext⟩ := hpath
  unfold detectCycleWithState
  rw [h21, hd, if_pos htrue, hext]
  simp

theorem cycleScan_error_of_mem {g : DepGraph} {keys : List String} {v : String}
    (hv : v ∈ keys) (hne : detectCycleWithState g v ≠ []) :
    ∃ c, cycleScan g keys = .error (.circularDependency c) := by
  induction keys with
  | nil => cases hv
  | cons k rest ih =>
    unfold cycleScan
    by_cases hk : detectCycleWithState g k = []
    · rw [if_pos hk]
      rcases List.mem_cons.mp hv with hEq | hMem
      · subst hEq
        exact absurd hk hne
      · exact ih hMem
    · rw [if_neg hk]
      exact ⟨_, rfl⟩

theorem buildDependencyGraph_error_of_cycle {snaps : List SourceSnapshot} {v : String}
    (hcyc : ReachG (DepGraph.mk (buildGraphEdges snaps)) v v) :
    ∃ c, buildDependencyGraph snaps = .error (.circularDependency c) := by
  have hdet := detect_cycle_of_reach hcyc
  have hedge : ∃ b, hasEdge (DepGraph.mk (buildGraphEdges snaps)) v b := by
    cases hcyc with
    | single he => exact ⟨_, he⟩
    | head he _ => exact ⟨_, he⟩
  obtain ⟨b, hb⟩ := hedge
  have hmem : v ∈ snaps.flatMap (fun s => s.vars.map (fun vv => vv.key)) := by
    simp only [hasEdge, buildGraphEdges] at hb
    rw [List.mem_flatMap] at hb
    obtain ⟨s, hs, hb2⟩ := hb
    rw [List.mem_flatMap] at hb2
    obtain ⟨vv, hvv, hb3⟩ := hb2
    rw [List.mem_map] at hb3
    obtain ⟨r, _, hb4⟩ := hb3
    have hkey : vv.key = v := congrArg DepEdge.efrom hb4
    rw [List.mem_flatMap]
    exact ⟨s, hs, List.mem_map.mpr ⟨vv, hvv, hkey⟩⟩
  exact cycleScan_error_of_mem hmem hdet

/-! ### Total success of resolution without type checking (for claim C1) -/

theorem resolveVariable_zero_nil_ok (icfg : InterpolationConfig) (v : ParsedVariable)
    (allS : List SourceSnapshot) (hmd : 1 ≤ icfg.maxDepth) :
    ∃ r, resolveVariable icfg v allS 0 [] = .ok r := by
  unfold resolveVariable
  split_ifs with h1 h2 h3
  · exact ⟨_, rfl⟩
  · omega
  · simp at h3
  · exact ⟨_, rfl⟩

theorem resolveLoop_ok (icfg : InterpolationConfig) (hmd : 1 ≤ icfg.maxDepth)
    (key : String) (allS : List SourceSnapshot) :
    ∀ (l : List SourceSnapshot) (acc : Option ResolvedVariable),
      ∃ r, resolveLoop icfg key allS l acc = .ok r := by
  intro l
  induction l with
  | nil =>
    intro acc
    exact ⟨acc, rfl⟩
  | cons s rest ih =>
    intro acc
    unfold resolveLoop
    cases hf : s.vars.find? (fun v => v.key = key) with
    | none => exact ih acc
    | some v =>
      obtain ⟨r0, hr0⟩ := resolveVariable_zero_nil_ok icfg v allS hmd
      show ∃ r, (match resolveVariable icfg v allS 0 [] with
        | .ok rr => resolveLoop icfg key allS rest (some rr)
        | .error e => .error e) = .ok r
      rw [hr0]
      exact ih (some r0)

theorem resolveInner_ok {rcfg : ResolutionConfig} {icfg : InterpolationConfig}
    {key : String} {snaps : List SourceSnapshot}
    (htc : rcfg.typeCheck = false) (hmd : 1 ≤ icfg.maxDepth) :
    ∃ r, resolveInner rcfg icfg key snaps = .ok r := by
  unfold resolveInner
  obtain ⟨o, ho⟩ :=
    resolveLoop_ok icfg hmd key snaps (sortSnapshotsByFileOrder rcfg snaps) none
  rw [ho]
  cases o with
  | none => exact ⟨none, rfl⟩
  | some var =>
    refine ⟨some var, ?_⟩
    show (if (var.hasWarnings && rcfg.typeCheck) = true then
        Except.error (AbError.circularDependency ("Cycle detected resolving '" ++ key ++ "'"))
      else Except.ok (some var)) = Except.ok (some var)
    rw [htc]
    simp

/-! ### Claim C1: cycle totality -/

/-- Counterexample to C1 as stated: for the cyclic file `A=${B}`, `B=${A}`
with `type_check = false` and `max_depth = 4` (a cycle of length 2 ≤ 4),
`resolve` on the cycle key `A` returns `Ok` — not `CircularDependency` or
`MaxDepthExceeded`. -/
theorem resolve_cycle_no_typecheck_ok :
    resolve rcNoTC ic4 0 "A" [snapCycleAB] =
      .ok (some { key := "A", rawValue := "${B}", resolvedValue := "${A}",
                  source := .file "/w/.env" 0, description := none,
                  hasWarnings := false, interpolationDepth := 0 }) := by
  decide

/-- C1 (amended): for snapshot sets whose reference graph has a cycle
through `v`, a fresh-engine `resolve` (graph version 0) with
`type_check = true` and a non-zero snapshot version sum fails with
`CircularDependency` — for any queried key, in particular any key of the
cycle.  With `type_check = false` (and `max_depth ≥ 1`, as implied by a
cycle of length ≤ `max_depth`), `resolve` does not fail at all: it returns
`Ok`, with circular references left unexpanded by the lazy interpolator. -/
theorem cycle_totality :
    (∀ (rcfg : ResolutionConfig) (icfg : InterpolationConfig)
        (snaps : List SourceSnapshot) (v key : String),
      rcfg.typeCheck = true → snapshotsVersion snaps ≠ 0 →
      ReachG (DepGraph.mk (buildGraphEdges snaps)) v v →
      ∃ chain, resolve rcfg icfg 0 key snaps = .error (.circularDependency chain)) ∧
    (∀ (rcfg : ResolutionConfig) (icfg : InterpolationConfig) (gv : Nat)
        (key : String) (snaps : List SourceSnapshot),
      rcfg.typeCheck = false → 1 ≤ icfg.maxDepth →
      ∃ r, resolve rcfg icfg gv key snaps = .ok r) := by
  constructor
  · intro rcfg icfg snaps v key htc hver hcyc
    obtain ⟨c, hc⟩ := buildDependencyGraph_error_of_cycle hcyc
    refine ⟨c, ?_⟩
    unfold resolve
    rw [if_pos ⟨htc, hver⟩, hc]
  · intro rcfg icfg gv key snaps htc hmd
    obtain ⟨r, hr⟩ := resolveInner_ok htc hmd
    refine ⟨r, ?_⟩
    unfold resolve
    rw [if_neg ?_]
    · exact hr
    · rintro ⟨h1, _⟩
      rw [htc] at h1
      cases h1

/-- Witness for C1 at the concrete two-cycle `A=${B}`, `B=${A}`. -/
theorem cycle_totality_witness :
    (∃ chain, resolve rcDefault icDefault 0 "A" [snapCycleAB] =
      .error (.circularDependency chain)) ∧
    (∃ r, resolve rcNoTC icDefault 0 "B" [snapCycleAB] = .ok r) :=
  ⟨cycle_totality.1 rcDefault icDefault [snapCycleAB] "A" "A" rfl (by decide)
      (@ReachG.head (DepGraph.mk (buildGraphEdges [snapCycleAB])) "A" "B" "A"
        (by simp only [hasEdge]; decide)
        (@ReachG.single (DepGraph.mk (buildGraphEdges [snapCycleAB])) "B" "A"
          (by simp only [hasEdge]; decide))),
   cycle_totality.2 rcNoTC icDefault 0 "B" [snapCycleAB] rfl (by decide)⟩

/-! ### Claim C6: auto-discovery priority -/

theorem joinPath_data (dir nm : String) :
    (joinPath dir nm).data = dir.data ++ '/' :: nm.data := by
  show (dir ++ "/" ++ nm).data = dir.data ++ '/' :: nm.data
  simp [String.data_append]

theorem joinPath_right_cancel {a b n : String} (h : joinPath a n = joinPath b n) :
    a = b := by
  have hd : a.data ++ '/' :: n.data = b.data ++ '/' :: n.data := by
    have h2 := congrArg String.data h
    rw [joinPath_data, joinPath_data] at h2
    exact h2
  exact String.ext (List.append_cancel_right hd)

theorem joinPath_length (dir nm : String) :
    (joinPath dir nm).length = dir.length + 1 + nm.length := by
  show (dir ++ "/" ++ nm).length = dir.length + 1 + nm.length
  simp [String.length_append]
  decide

theorem firstExisting_some {fs : List String} {root : String} {l : List String}
    {f : String} (h : firstExisting fs root l = some f) :
    ∃ pre n post, l = pre ++ n :: post ∧ f = joinPath root n ∧
      fs.contains (joinPath root n) = true ∧
      ∀ m ∈ pre, fs.contains (joinPath root m) = false := by
  induction l with
  | nil => simp [firstExisting] at h
  | cons a rest ih =>
    unfold firstExisting at h
    by_cases hc : fs.contains (joinPath root a) = true
    · rw [if_pos hc] at h
      injection h with h
      exact ⟨[], a, rest, by simp, h.symm, hc, by simp⟩
    · rw [if_neg hc] at h
      obtain ⟨pre, n, post, hl, hf, hcn, hpre⟩ := ih h
      refine ⟨a :: pre, n, post, by simp [hl], hf, hcn, ?_⟩
      intro m hm
      rcases List.mem_cons.mp hm with hEq | hMem
      · subst hEq
        simpa using hc
      · exact hpre m hMem

/-- C6: whenever `.env.local` exists at a package root, auto-discovery
selects `<pkg>/.env.local` and never `<pkg>/.env` — at each probed root the
first existing file of the priority list wins, and `.env.local` comes before
`.env`. -/
theorem autoDiscover_env_local_wins (fs : List String) (ws pkg : String)
    (pkgs : List PackageInfo)
    (hloc : fs.contains (joinPath pkg ".env.local") = true) :
    joinPath pkg ".env.local" ∈ autoDiscoverFiles fs ws pkg pkgs ∧
    joinPath pkg ".env" ∉ autoDiscoverFiles fs ws pkg pkgs := by
  have hpkgFE : firstExisting fs pkg AUTO_DISCOVERY_PRIORITY =
      some (joinPath pkg ".env.local") := by
    unfold AUTO_DISCOVERY_PRIORITY firstExisting
    rw [if_pos hloc]
  constructor
  · unfold autoDiscoverFiles
    rw [hpkgFE]
    simp
  · intro hmem
    unfold autoDiscoverFiles at hmem
    rw [hpkgFE] at hmem
    rcases List.mem_append.mp hmem with hws | hpkg
    · -- the workspace-root probe would have to produce `<pkg>/.env`
      have hws2 : firstExisting fs ws AUTO_DISCOVERY_PRIORITY =
          some (joinPath pkg ".env") := by
        by_cases hmono : pkgs.length > 1 ∨ pkg ≠ ws
        · rw [if_pos hmono] at hws
          cases hfe : firstExisting fs ws AUTO_DISCOVERY_PRIORITY with
          | none => rw [hfe] at hws; simp at hws
          | some f =>
            rw [hfe] at hws
            simp at hws
            exact congrArg some hws.symm
        · rw [if_neg hmono] at hws
          simp at hws
      obtain ⟨pre, n, post, hl, hf, hcn, hpre⟩ := firstExisting_some hws2
      have hnmem : n ∈ AUTO_DISCOVERY_PRIORITY := by
        rw [hl]
        simp
      -- the two suffixes `"/" ++ n` and `"/.env"` of the same string are
      -- comparable, which over the concrete priority list forces n = ".env"
      have hdata : ws.data ++ '/' :: n.data = pkg.data ++ '/' :: ".env".data := by
        have h2 := congrArg String.data hf
        rw [joinPath_data, joinPath_data] at h2
        exact h2.symm
      have hsuf : ('/' :: n.data) <:+ ('/' :: ".env".data) ∨
          ('/' :: ".env".data) <:+ ('/' :: n.data) := by
        refine @List.suffix_or_suffix_of_suffix Char ('/' :: n.data) (pkg.data ++ '/' :: ".env".data) ('/' :: ".env".data) ?_ ?_
        · rw [← hdata]
          exact List.suffix_append ws.data ('/' :: n.data)
        · exact List.suffix_append pkg.data ('/' :: ".env".data)
      have hn : n = ".env" := by
        simp [AUTO_DISCOVERY_PRIORITY] at hnmem
        rcases hnmem with h | h | h | h | h | h | h | h <;> subst h
        · exact absurd hsuf (by decide)
        · exact absurd hsuf (by decide)
        · exact absurd hsuf (by decide)
        · rfl
        · exact absurd hsuf (by decide)
        · exact absurd hsuf (by decide)
        · exact absurd hsuf (by decide)
        · exact absurd hsuf (by decide)
      subst hn
      have hws_pkg : ws = pkg := joinPath_right_cancel hf.symm
      subst hws_pkg
      -- `.env.local` precedes `.env` in the priority list, so `pre`
      -- contains it and the probe proved it absent: contradiction
      cases pre with
      | nil => simp [AUTO_DISCOVERY_PRIORITY] at hl
      | cons p0 pre2 =>
        have hl2 : ".env.local" = p0 ∧
            [".env.development", ".env.dev", ".env", ".env.test", ".env.staging",
             ".env.production", ".env.prod"] = pre2 ++ ".env" :: post := by
          simpa [AUTO_DISCOVERY_PRIORITY] using hl
        have hp0 := hl2.1
        have := hpre p0 (by simp)
        rw [← hp0] at this
        rw [this] at hloc
        cases hloc
    · -- the package probe produced `.env.local`, whose path differs from
      -- `<pkg>/.env` in length
      simp at hpkg
      have hlen := congrArg String.length hpkg
      rw [joinPath_length, joinPath_length] at hlen
      have h4 : (".env" : String).length = 4 := rfl
      have h10 : (".env.local" : String).length = 10 := rfl
      rw [h4, h10] at hlen
      omega

/-- Witness for C6 at a concrete filesystem. -/
theorem autoDiscover_env_local_wins_witness :
    joinPath "/w" ".env.local" ∈
      autoDiscoverFiles ["/w/.env.local", "/w/.env"] "/w" "/w" [] ∧
    joinPath "/w" ".env" ∉
      autoDiscoverFiles ["/w/.env.local", "/w/.env"] "/w" "/w" [] :=
  autoDiscover_env_local_wins ["/w/.env.local", "/w/.env"] "/w" "/w" [] (by decide)

/-! ### Claim C7: set / remove / load round trip on the memory source -/

theorem fst_getElem_inj {l : List (String × ParsedVariable)}
    (hnd : (l.map Prod.fst).Nodup) {i j : Nat} (hi : i < l.length) (hj : j < l.length)
    (h : l[i].1 = l[j].1) : i = j := by
  have hi2 : i < (l.map Prod.fst).length := by simpa using hi
  have hj2 : j < (l.map Prod.fst).length := by simpa using hj
  refine (@List.Nodup.getElem_inj_iff _ _ hnd i hi2 j hj2).mp ?_
  simpa [List.getElem_map] using h

theorem swapRemoveAt_key_ne {l : List (String × ParsedVariable)} {i : Nat}
    (hnd : (l.map Prod.fst).Nodup) (hi : i < l.length) :
    ∀ x ∈ swapRemoveAt l i, x.1 ≠ l[i].1 := by
  intro x hx
  have hne : l ≠ [] := by
    intro hnil
    rw [hnil] at hi
    simp at hi
  unfold swapRemoveAt at hx
  rw [List.getLast?_eq_getLast l hne] at hx
  obtain ⟨j, hj, hxj⟩ := List.mem_iff_getElem.mp hx
  have hj2 : j < l.length - 1 := by
    simpa [List.length_set, List.length_dropLast] using hj
  rw [List.getElem_set] at hxj
  by_cases hij : i = j
  · rw [if_pos hij] at hxj
    subst hxj
    rw [List.getLast_eq_getElem]
    intro hEq
    have hidx := fst_getElem_inj hnd (by omega) hi hEq
    omega
  · rw [if_neg hij] at hxj
    rw [List.getElem_dropLast] at hxj
    subst hxj
    intro hEq
    have hidx := fst_getElem_inj hnd (by omega) hi hEq
    omega

theorem swapRemoveAt_subset {l : List (String × ParsedVariable)} {i : Nat} :
    ∀ x ∈ swapRemoveAt l i, x ∈ l := by
  intro x hx
  unfold swapRemoveAt at hx
  cases hl : l.getLast? with
  | none => rw [hl] at hx; simp at hx
  | some last =>
    rw [hl] at hx
    have hne : l ≠ [] := by
      intro hnil
      rw [hnil] at hl
      simp at hl
    rcases List.mem_or_eq_of_mem_set hx with hmem | hEq
    · exact List.Sublist.mem hmem (List.dropLast_sublist l)
    · subst hEq
      rw [List.getLast?_eq_getLast l hne] at hl
      injection hl with hl
      rw [← hl]
      exact List.getLast_mem hne

theorem indexMapInsert_fsts (l : List (String × ParsedVariable)) (k : String)
    (v : ParsedVariable) :
    (indexMapInsert l k v).map Prod.fst =
      if k ∈ l.map Prod.fst then l.map Prod.fst else l.map Prod.fst ++ [k] := by
  induction l with
  | nil => simp [indexMapInsert]
  | cons p rest ih =>
    obtain ⟨k1, v1⟩ := p
    by_cases h1 : k1 = k
    · subst h1
      simp [indexMapInsert]
    · have h2 : ¬ k = k1 := fun hh => h1 hh.symm
      simp only [indexMapInsert, if_neg h1, List.map_cons, ih]
      by_cases h3 : k ∈ rest.map Prod.fst
      · simp [h3, h2]
      · simp [h3, h2]

theorem indexMapInsert_mem {l : List (String × ParsedVariable)} {k : String}
    {v : ParsedVariable} :
    ∀ x ∈ indexMapInsert l k v, x ∈ l ∨ x = (k, v) := by
  induction l with
  | nil =>
    intro x hx
    simp [indexMapInsert] at hx
    right
    exact hx
  | cons p rest ih =>
    obtain ⟨k1, v1⟩ := p
    intro x hx
    by_cases h1 : k1 = k
    · simp [indexMapInsert, h1] at hx
      rcases hx with h | h
      · right
        rw [h]
      · left
        simp [h]
    · simp only [indexMapInsert, if_neg h1, List.mem_cons] at hx
      rcases hx with h | h
      · left
        simp [h]
      · rcases ih x h with h2 | h2
        · left
          simp [h2]
        · right
          exact h2

theorem indexMapInsert_key_mem (l : List (String × ParsedVariable)) (k : String)
    (v : ParsedVariable) : k ∈ (indexMapInsert l k v).map Prod.fst := by
  rw [indexMapInsert_fsts]
  by_cases h : k ∈ l.map Prod.fst
  · simp [h]
  · simp [h]

theorem indexMapInsert_nodup {l : List (String × ParsedVariable)} {k : String}
    {v : ParsedVariable} (hnd : (l.map Prod.fst).Nodup) :
    ((indexMapInsert l k v).map Prod.fst).Nodup := by
  rw [indexMapInsert_fsts]
  by_cases h : k ∈ l.map Prod.fst
  · simpa [h] using hnd
  · rw [if_neg h]
    refine List.nodup_append.mpr ⟨hnd, by simp, ?_⟩
    intro a ha hak
    simp at hak
    subst hak
    exact h ha

/-- C7: for every key `k` and value `v`, the sequence
`memory.set(k, v); memory.remove(k); memory.load()` yields a snapshot with
no record for `k` (given the structural invariants of the backing
`IndexMap`). -/
theorem memSet_remove_load_no_key (s : MemorySource) (k value : String)
    (hinv : MemMapInv s) :
    ∀ pv ∈ (memLoad (memRemove (memSet s k value) k).2).vars, pv.key ≠ k := by
  obtain ⟨hnd, hkeys⟩ := hinv
  have hnd1 : ((memSet s k value).entries.map Prod.fst).Nodup :=
    indexMapInsert_nodup hnd
  have hkm : k ∈ (memSet s k value).entries.map Prod.fst :=
    indexMapInsert_key_mem s.entries k _
  cases hidx : (memSet s k value).entries.findIdx? (fun p => p.1 = k) with
  | none =>
    exfalso
    rw [List.findIdx?_eq_none_iff] at hidx
    obtain ⟨x, hx, hxk⟩ := List.mem_map.mp hkm
    have := hidx x hx
    simp [hxk] at this
  | some i =>
    obtain ⟨hlt, hpi⟩ := findIdx?_some_spec hidx
    have hik : (memSet s k value).entries[i].1 = k := by simpa using hpi
    intro pv hpv
    unfold memRemove at hpv
    rw [hidx] at hpv
    simp only [memLoad] at hpv
    obtain ⟨x, hx, hxpv⟩ := List.mem_map.mp hpv
    have hxl1 : x ∈ (memSet s k value).entries := swapRemoveAt_subset x hx
    have hxkey : x.2.key = x.1 := by
      rcases indexMapInsert_mem x hxl1 with hmem | hEq
      · exact hkeys x hmem
      · rw [hEq]
    have hne := swapRemoveAt_key_ne hnd1 hlt x hx
    rw [← hxpv, hxkey]
    rw [hik] at hne
    exact hne

/-- Witness for C7 at a concrete state. -/
theorem memSet_remove_load_no_key_witness :
    ({ key := "OTHER", rawValue := "x", source := .memory, description := none,
       isCommented := false } : ParsedVariable).key ≠ "K" :=
  memSet_remove_load_no_key (memSet memNew "OTHER" "x") "K" "v"
    ⟨by decide, by decide⟩
    { key := "OTHER", rawValue := "x", source := .memory, description := none,
      isCommented := false } (by decide)

/-- Witness for C8 at a concrete resolution. -/
theorem has_warnings_constantly_false_witness :
    ({ key := "FOO", rawValue := "file", resolvedValue := "file",
       source := .file "/w/.env" 0, description := none, hasWarnings := false,
       interpolationDepth := 0 } : ResolvedVariable).hasWarnings = false :=
  has_warnings_constantly_false.1 icDefault varFooFile [snapFileFoo] 0 []
    { key := "FOO", rawValue := "file", resolvedValue := "file",
      source := .file "/w/.env" 0, description := none, hasWarnings := false,
      interpolationDepth := 0 } (by decide)

end Abundantis
